import Mathlib

/-!
Verification development for the `AIS_ViewCube` orientation widget
(`src/src/AIS/AIS_ViewCube.cxx`).

The development shallowly embeds the widget's core routines:
direction classification, rounded-rectangle and sharp-corner mesh building,
round-radius validation, the camera-animation tick functions, the pick-ray
admissibility filter, and the up-vector disambiguation of `StartAnimation`.
Machine `Standard_Real` values are modelled as `ℝ`.  External OCCT helpers
(`gp`, `V3d`, `Precision`, `AIS_AnimationCamera`) are not part of the source
tree; where a claim depends on them they are modelled from the specification
and marked as such in their doc comments.
-/

namespace ViewCube

/-! ## 3D vector algebra (models OCCT `gp_XYZ` / `gp_Vec` / `gp_Dir`) -/

/-- A 3D vector with real coordinates, modelling `gp_XYZ`/`gp_Vec`/`gp_Dir`
coordinate triples. -/
structure V3 where
  x : ℝ
  y : ℝ
  z : ℝ

/-- Component-wise vector addition (`gp_XYZ::Added`). -/
def addV (a b : V3) : V3 := ⟨a.x + b.x, a.y + b.y, a.z + b.z⟩

/-- Component-wise vector subtraction (`gp_XYZ::Subtracted`). -/
def subV (a b : V3) : V3 := ⟨a.x - b.x, a.y - b.y, a.z - b.z⟩

/-- Scalar multiple of a vector (`gp_XYZ::Multiplied`). -/
def smulV (c : ℝ) (v : V3) : V3 := ⟨c * v.x, c * v.y, c * v.z⟩

/-- Dot product (`gp_XYZ::Dot`). -/
def dotV (a b : V3) : ℝ := a.x * b.x + a.y * b.y + a.z * b.z

/-- Cross product (`gp_XYZ::Crossed`). -/
def crossV (a b : V3) : V3 :=
  ⟨a.y * b.z - a.z * b.y, a.z * b.x - a.x * b.z, a.x * b.y - a.y * b.x⟩

/-- Euclidean norm (`gp_Vec::Magnitude` / `gp_XY::Modulus`). -/
noncomputable def normV (v : V3) : ℝ := Real.sqrt (dotV v v)

/-- Modelled from the spec: `gp_Dir` construction normalizes its coordinate
triple to unit length (the `gp_Dir` code is outside `src/`). -/
noncomputable def normalizeV (v : V3) : V3 := smulV (normV v)⁻¹ v

/-- Modelled from the spec: the angular distance between two vectors
(`gp_Vec::Angle` / `gp_Dir::Angle`, outside `src/`), the arccosine of the
normalized dot product, valued in `[0, π]`. -/
noncomputable def vecAngle (a b : V3) : ℝ :=
  Real.arccos (dotV a b / (normV a * normV b))

/-- Modelled from the spec: rotation of `v` by angle `ang` around a unit
`axis` through the origin (`gp_Dir::Rotated`, outside `src/`), by the
Rodrigues formula. -/
noncomputable def rotatedV (axis : V3) (ang : ℝ) (v : V3) : V3 :=
  addV (addV (smulV (Real.cos ang) v) (smulV (Real.sin ang) (crossV axis v)))
    (smulV (dotV axis v * (1 - Real.cos ang)) axis)

/-! ## Numeric constants

`Precision` and `gp::Resolution` live outside `src/`; their documented
values are used. -/

/-- `Precision::Confusion()` = 1.0e-7. -/
noncomputable def precisionConfusion : ℝ := 1 / 10 ^ 7

/-- `Precision::Angular()` = 1.0e-12. -/
noncomputable def precisionAngular : ℝ := 1 / 10 ^ 12

/-- `Precision::Infinite()` = 2.0e100. -/
noncomputable def precisionInfinite : ℝ := 2 * 10 ^ 100

/-- The fixed per-corner subdivision count `THE_NB_ROUND_SPLITS` of the
anonymous namespace in `AIS_ViewCube.cxx`. -/
def THE_NB_ROUND_SPLITS : ℕ := 8

/-! ## Direction classification (claim C3)

`nbDirectionComponents` counts the components of a `gp_Dir` whose magnitude
exceeds `gp::Resolution()` (= `RealSmall()` = 2.2250738585072014e-308 =
2^(-1022)).  `V3d::GetProjAxis` (outside `src/`) maps each of the 26
orientation enumerators to the unit vector along one of the non-zero sign
combinations of `{-1,0,1}^3`; since normalization scales by a positive
factor it cannot move a component across the 2^(-1022) threshold, the
directions are modelled by their exact integer sign combinations.  For an
integer component `c`, `|c| > 1/2^1022` is expressed by the equivalent
cross-multiplied inequality `1 < |c| * 2^1022`. -/

/-- The denominator of `gp::Resolution()` = `DBL_MIN` = 2^(-1022), as a
plain numeral (see `gpResolutionDen_eq`). -/
def gpResolutionDen : ℕ := 44942328371557897693232629769725618340449424473557664318357520289433168951375240783177119330601884005280028469967848339414697442203604155623211857659868531094441973356216371319075554900311523529863270738021251442209537670585615720368478277635206809290837627671146574559986811484619929076208839082406056034304

/-- The numeral `gpResolutionDen` is 2^1022. -/
theorem gpResolutionDen_eq : gpResolutionDen = 2 ^ 1022 := by
  have h1 : (2 : ℕ) ^ 1022 = ((2 ^ 73) ^ 7) ^ 2 := by
    rw [← pow_mul, ← pow_mul]
  rw [h1]
  norm_num [gpResolutionDen]

/-- Whether the magnitude of an integer component exceeds
`gp::Resolution()`: `|c| > 1/2^1022`, cross-multiplied. -/
def exceedsResolution (c : ℤ) : Bool := decide (1 < c.natAbs * gpResolutionDen)

/-- A direction modelled by exact integer sign coordinates. -/
structure DirZ where
  x : ℤ
  y : ℤ
  z : ℤ
deriving DecidableEq

/-- `nbDirectionComponents`: the number of components whose magnitude
exceeds `gp::Resolution()`. -/
def nbDirectionComponents (d : DirZ) : ℕ :=
  ([d.x, d.y, d.z]).countP exceedsResolution

/-- `AIS_ViewCube::IsBoxSide`: exactly 1 non-zero component. -/
def IsBoxSide (d : DirZ) : Prop := nbDirectionComponents d = 1

/-- `AIS_ViewCube::IsBoxEdge`: exactly 2 non-zero components. -/
def IsBoxEdge (d : DirZ) : Prop := nbDirectionComponents d = 2

/-- `AIS_ViewCube::IsBoxCorner`: exactly 3 non-zero components. -/
def IsBoxCorner (d : DirZ) : Prop := nbDirectionComponents d = 3

instance (d : DirZ) : Decidable (IsBoxSide d) := by unfold IsBoxSide; infer_instance
instance (d : DirZ) : Decidable (IsBoxEdge d) := by unfold IsBoxEdge; infer_instance
instance (d : DirZ) : Decidable (IsBoxCorner d) := by unfold IsBoxCorner; infer_instance

/-- Modelled from the spec: the 26 canonical directions (`V3d::GetProjAxis`
over all `V3d_TypeOfOrientation` enumerators, outside `src/`) — every
non-zero sign combination of `{-1,0,1}^3`. -/
def canonicalDirections : List DirZ :=
  ((([-1, 0, 1] : List ℤ).flatMap fun sx =>
      (([-1, 0, 1] : List ℤ).flatMap fun sy =>
        (([-1, 0, 1] : List ℤ).map fun sz => DirZ.mk sx sy sz)))).filter
    fun d => decide (d ≠ ⟨0, 0, 0⟩)

/-! ## Rounded-rectangle builder (claims C2, C7, C9)

Embeds `AIS_ViewCube::createRoundRectangleTriangles`.  A mesh is a list of
vertices together with a list of 1-based triangle index triples (the
`Graphic3d_ArrayOfTriangles` vertex and edge lists).  The `gp_Trsf`
placement (outside `src/`) is modelled from the spec as a point map applied
to every generated planar point; the per-vertex normals (all equal to the
reversed transformed plane normal) are not modelled, no verified property
mentions them. -/

/-- `NCollection_Lerp<Standard_Real>::Interpolate`: linear interpolation
from `a` to `b` at parameter `t`. -/
noncomputable def lerpR (a b t : ℝ) : ℝ := (1 - t) * a + t * b

/-- One quarter-arc fan of `THE_NB_ROUND_SPLITS + 1` vertices around center
`(cx, cy)` with radius `r`, the angle interpolated linearly from `a1` to
`a2` — one of the four per-corner loops of
`createRoundRectangleTriangles`. -/
noncomputable def arcVerts (cx cy r a1 a2 : ℝ) : List V3 :=
  (List.range (THE_NB_ROUND_SPLITS + 1)).map fun (i : ℕ) =>
    ⟨cx + r * Real.cos (lerpR a1 a2 ((i : ℝ) / (THE_NB_ROUND_SPLITS : ℝ))),
     cy + r * Real.sin (lerpR a1 a2 ((i : ℝ) / (THE_NB_ROUND_SPLITS : ℝ))), 0⟩

/-- The effective corner radius of `createRoundRectangleTriangles`:
`Min (theRadius, Min (theSize.X(), theSize.Y()) * 0.5)`. -/
noncomputable def effectiveRadius (sizeX sizeY radius : ℝ) : ℝ :=
  min radius (min sizeX sizeY * 0.5)

open scoped Classical in
/-- `AIS_ViewCube::createRoundRectangleTriangles`: vertices and 1-based
triangle index triples of the rounded rectangle of extents
`sizeX × sizeY`, corner radius `radius`, placed by `trsf`. -/
noncomputable def createRoundRectangleTriangles (sizeX sizeY radius : ℝ)
    (trsf : V3 → V3) : List V3 × List (ℕ × ℕ × ℕ) :=
  let aRadius := effectiveRadius sizeX sizeY radius
  let hx := sizeX * 0.5 - aRadius
  let hy := sizeY * 0.5 - aRadius
  if 0 < aRadius then
    let aNbNodes := (THE_NB_ROUND_SPLITS + 1) * 4 + 1
    let verts : List V3 :=
      V3.mk 0 0 0 ::
        (arcVerts hx hy aRadius (Real.pi * 0.5) 0 ++
          arcVerts hx (-hy) aRadius 0 (-(Real.pi * 0.5)) ++
          arcVerts (-hx) (-hy) aRadius (-(Real.pi * 0.5)) (-Real.pi) ++
          arcVerts (-hx) hy aRadius (-Real.pi) (-(Real.pi * 1.5)))
    (verts.map trsf,
      ((List.range (aNbNodes - 1)).map fun k => (1, k + 1, k + 2)) ++
        [(1, aNbNodes, 2)])
  else
    ([trsf ⟨-hx, -hy, 0⟩, trsf ⟨-hx, hy, 0⟩, trsf ⟨hx, hy, 0⟩, trsf ⟨hx, -hy, 0⟩],
      [(3, 1, 2), (1, 3, 4)])

/-! ## Sharp-corner builder (claim C6)

Embeds the `myRoundRadius == 0` branch of
`AIS_ViewCube::createBoxCornerTriangles`.  The rounded branch delegates to
`Prs3d_ToolDisk::Create` (outside `src/`) and is referenced by no claim,
so it is not modelled.  `aDir` is the unit direction of the corner
(`V3d::GetProjAxis`). -/

open scoped Classical in
/-- The sharp (`myRoundRadius == 0`) branch of
`AIS_ViewCube::createBoxCornerTriangles`: three vertices at the cube corner
offset by `ext` (`myBoxFacetExtension`) along each axis in the sign of the
corresponding component of `aDir`, wound so the face normal points along
`aDir`. -/
noncomputable def createBoxCornerSharp (size ext : ℝ) (aDir : V3) :
    List V3 × List (ℕ × ℕ × ℕ) :=
  let aHSizeDir := smulV (size * 0.5 * normV ⟨1, 1, 1⟩) aDir
  let v1 := addV aHSizeDir (smulV ext (normalizeV ⟨aDir.x, 0, 0⟩))
  let v2 := addV aHSizeDir (smulV ext (normalizeV ⟨0, aDir.y, 0⟩))
  let v3 := addV aHSizeDir (smulV ext (normalizeV ⟨0, 0, aDir.z⟩))
  let aNormTri := crossV (subV v2 v1) (subV v3 v1)
  ([v1, v2, v3], if dotV aNormTri aDir < 0 then [(1, 3, 2)] else [(1, 2, 3)])

/-- Face normal of a 1-based triangle index triple over a vertex list: the
cross product of its two edges from the first vertex, as in the winding
test of `createBoxCornerTriangles`. -/
noncomputable def triNormal (verts : List V3) (t : ℕ × ℕ × ℕ) : V3 :=
  crossV (subV (verts.getD (t.2.1 - 1) ⟨0, 0, 0⟩) (verts.getD (t.1 - 1) ⟨0, 0, 0⟩))
    (subV (verts.getD (t.2.2 - 1) ⟨0, 0, 0⟩) (verts.getD (t.1 - 1) ⟨0, 0, 0⟩))

/-! ## Round-radius validation (claim C8)

Embeds `AIS_ViewCube::SetRoundRadius`.  The mutable widget state is
restricted to the fields the method can touch: the stored round radius and
the to-update flag (`SetToUpdate`).  `Standard_OutOfRange_Raise_if` is
modelled by `Except.error` carrying the source's message; an error is
raised before any mutation, so the erroneous case returns no new state. -/

/-- The widget state mutable by `SetRoundRadius`. -/
structure CubeState where
  roundRadius : ℝ
  toUpdate : Bool

/-- The exception text of `AIS_ViewCube::SetRoundRadius`. -/
def roundRadiusErrorMsg : String :=
  "AIS_ViewCube::SetRoundRadius(): theValue should be in [0; 0.5]"

open scoped Classical in
/-- `AIS_ViewCube::SetRoundRadius`: raise for a value outside `[0, 0.5]`;
store the value and mark the widget for update when it differs from the
stored one by more than `Precision::Confusion()`. -/
noncomputable def SetRoundRadius (s : CubeState) (theValue : ℝ) :
    Except String CubeState :=
  if theValue < 0 ∨ 0.5 < theValue then
    Except.error roundRadiusErrorMsg
  else if precisionConfusion < |s.roundRadius - theValue| then
    Except.ok ⟨theValue, true⟩
  else
    Except.ok s

/-! ## Animation tick (claim C5)

Embeds `AIS_ViewCube::updateAnimation` / `UpdateAnimation` and the
timer-facing tail of `StartAnimation`.  The external `AIS_AnimationCamera`
(outside `src/`) is modelled from the spec by its observable state: a
stopped flag (`IsStopped`/`Stop`/`StartTimer`), whether a view reference is
held (`SetView`), and the elapsed time a tick observes (`UpdateTimer`),
which is an input of the tick.  The `onAnimationFinished` and
`onAfterAnimation` notifications are modelled by counters. -/

/-- Observable animation-controller state. -/
structure AnimState where
  stopped : Bool
  hasView : Bool
  finishedCount : ℕ
  afterCount : ℕ
  duration : ℝ

/-- `AIS_ViewCube::HasAnimation`: the animation timer is not stopped. -/
def HasAnimation (s : AnimState) : Bool := !s.stopped

/-- The timer-facing tail of `AIS_ViewCube::StartAnimation`: attach the
view and start the timer (`SetView` + `StartTimer`), entering the
Animating state. -/
def startAnimationTimer (s : AnimState) : AnimState :=
  { s with stopped := false, hasView := true }

open scoped Classical in
/-- `AIS_ViewCube::updateAnimation` at a tick observing `elapsed` time
(`UpdateTimer`): when the elapsed time reaches the duration, stop, fire
the finished notification, detach the view and return false; otherwise
return true. -/
noncomputable def updateAnimation (s : AnimState) (elapsed : ℝ) :
    AnimState × Bool :=
  if s.duration ≤ elapsed then
    (AnimState.mk true false (s.finishedCount + 1) s.afterCount s.duration, false)
  else
    (s, true)

open scoped Classical in
/-- `AIS_ViewCube::UpdateAnimation` (the view redraw, irrelevant to state,
is omitted): short-circuit when no animation runs, delegate to
`updateAnimation`, and fire the after-step notification when still
running. -/
noncomputable def UpdateAnimation (s : AnimState) (elapsed : ℝ) :
    AnimState × Bool :=
  if HasAnimation s = false then
    (s, false)
  else
    let r := updateAnimation s elapsed
    if r.2 then ({ r.1 with afterCount := r.1.afterCount + 1 }, true)
    else (r.1, false)

/-! ## Pick-ray admissibility (claims C4, C10)

Embeds `AIS_ViewCubeSensitive::isValidRay` and `Matches`.  The selecting
volume manager is modelled by its observed data: the active selection type
and the near/far picked points.  A `AIS_ViewCubeOwner` is modelled by the
projection axis of its `MainOrientation` (`V3d::GetProjAxis`, outside
`src/`, modelled from the spec as the unit direction of the orientation);
the `dynamic_cast` on the owner is modelled by an `Option`.
`gp_Vec::IsNormal` (outside `src/`) is modelled from the spec: the ray is
within the tolerance of perpendicular to the axis. -/

/-- `SelectBasics_SelectingVolumeManager` selection types. -/
inductive SelType where
  | Point
  | Box
  | Polyline
deriving DecidableEq

/-- Observed state of the selecting volume manager. -/
structure PickMgr where
  selType : SelType
  nearPnt : V3
  farPnt : V3

/-- An `AIS_ViewCubeOwner`, modelled by the projection axis of its
`MainOrientation`. -/
structure CubeOwner where
  axis : V3

/-- The angular tolerance of `isValidRay`: 10 degrees. -/
noncomputable def angleToler : ℝ := 10.0 * Real.pi / 180.0

/-- Modelled from the spec: `gp_Vec::IsNormal` — the angle to `d` is within
`tol` of a right angle. -/
noncomputable def vecIsNormal (v d : V3) (tol : ℝ) : Prop :=
  |Real.pi / 2 - vecAngle v d| ≤ tol

/-- `AIS_ViewCubeSensitive::isValidRay`: reject non-point selection; for a
view-cube owner, reject a ray within 10 degrees of perpendicular to the
projection axis of the owner's orientation; accept otherwise. -/
noncomputable def isValidRay (owner : Option CubeOwner) (mgr : PickMgr) : Prop :=
  if mgr.selType ≠ SelType.Point then
    False
  else
    match owner with
    | some o => ¬ vecIsNormal (subV mgr.farPnt mgr.nearPnt) o.axis angleToler
    | none => True

/-- `AIS_ViewCubeSensitive::Matches`: the ray filter conjoined with the
base triangulation hit test (abstracted as `baseMatches`). -/
noncomputable def sensMatches (owner : Option CubeOwner) (mgr : PickMgr)
    (baseMatches : Prop) : Prop :=
  isValidRay owner mgr ∧ baseMatches

/-! ## Up-vector disambiguation (claim C1)

Embeds the end-pose up computation of `AIS_ViewCube::StartAnimation`
(lines 730-757).  After `V3d_View::SetProj` (outside `src/`, modelled from
the spec) the throwaway camera holds the target orientation's canonical
view direction and canonical up; the fit step does not change the up.  The
candidate list, the argmin loop with its `Precision::Infinite()` sentinel
and default-constructed `gp_Dir` ((1,0,0)), and the guard
`!myToResetCameraUp && !aNewDir.IsEqual(oldDir, Precision::Angular())` are
embedded directly. -/

/-- The direction and up vector of a camera (`Graphic3d_Camera`). -/
structure CamPose where
  dir : V3
  up : V3

/-- The candidate list `anUpList` of `StartAnimation`: the canonical up of
the new orientation rotated by 0, π/2, π and 1.5·π around the new view
direction. -/
noncomputable def upCandidates (newDir canonicalUp : V3) : Fin 4 → V3 :=
  fun i =>
    match i with
    | 0 => canonicalUp
    | 1 => rotatedV newDir (Real.pi / 2) canonicalUp
    | 2 => rotatedV newDir Real.pi canonicalUp
    | 3 => rotatedV newDir (Real.pi * 1.5) canonicalUp

open scoped Classical in
/-- The argmin loop of `StartAnimation`: starting from the
`Precision::Infinite()` sentinel and a default `gp_Dir`, keep the first
candidate realizing the least angle to the old up. -/
noncomputable def selectClosestUp (cands : Fin 4 → V3) (oldUp : V3) : V3 :=
  (List.foldl
    (fun acc i =>
      if vecAngle (cands i) oldUp < acc.1 then (vecAngle (cands i) oldUp, cands i)
      else acc)
    (precisionInfinite, (⟨1, 0, 0⟩ : V3)) (List.finRange 4)).2

open scoped Classical in
/-- The end-pose up vector computed by `StartAnimation`: the canonical up
of the target orientation, replaced by the closest rotation candidate when
the reset-up policy is unset and the new view direction differs from the
old camera's direction beyond `Precision::Angular()`. -/
noncomputable def startAnimationEndUp (toResetCameraUp : Bool)
    (old target : CamPose) : V3 :=
  if toResetCameraUp = false ∧ ¬ vecAngle target.dir old.dir ≤ precisionAngular then
    selectClosestUp (upCandidates target.dir target.up) old.up
  else
    target.up

/-! ## Theorems -/

/-- Each quarter-arc fan contributes `THE_NB_ROUND_SPLITS + 1` vertices. -/
theorem arcVerts_length (cx cy r a1 a2 : ℝ) :
    (arcVerts cx cy r a1 a2).length = THE_NB_ROUND_SPLITS + 1 := by
  unfold arcVerts
  rw [List.length_map, List.length_range]

/-- C3: classification counts the axis components whose magnitude exceeds
the `gp::Resolution()` tolerance (1 non-zero component is Side, 2 is Edge,
3 is Corner); over the 26 canonical directions this yields exactly 6 Side,
12 Edge and 8 Corner results, and every canonical direction gets exactly
one classification. -/
theorem classify_canonical_directions :
    ((canonicalDirections.filter fun d => decide (IsBoxSide d)).length = 6) ∧
    ((canonicalDirections.filter fun d => decide (IsBoxEdge d)).length = 12) ∧
    ((canonicalDirections.filter fun d => decide (IsBoxCorner d)).length = 8) ∧
    (∀ d ∈ canonicalDirections,
      (IsBoxSide d ∧ ¬ IsBoxEdge d ∧ ¬ IsBoxCorner d) ∨
      (¬ IsBoxSide d ∧ IsBoxEdge d ∧ ¬ IsBoxCorner d) ∨
      (¬ IsBoxSide d ∧ ¬ IsBoxEdge d ∧ IsBoxCorner d)) := by
  decide

/-- C9: in the rounded-rectangle builder the effective radius is clamped to
at most half the shorter side, so for non-negative width, height and
requested radius the derived half-extents (half-size minus effective
radius) are never negative. -/
theorem effectiveRadius_clamped (w h r : ℝ) (hw : 0 ≤ w) (hh : 0 ≤ h)
    (hr : 0 ≤ r) :
    0 ≤ effectiveRadius w h r ∧
    effectiveRadius w h r ≤ min w h * 0.5 ∧
    0 ≤ w * 0.5 - effectiveRadius w h r ∧
    0 ≤ h * 0.5 - effectiveRadius w h r := by
  have h2 : min w h ≤ w := min_le_left _ _
  have h3 : min w h ≤ h := min_le_right _ _
  have h4 : (0 : ℝ) ≤ min w h := le_min hw hh
  have h1 : effectiveRadius w h r ≤ min w h * 0.5 := min_le_right _ _
  refine ⟨le_min hr (by nlinarith), h1, by nlinarith, by nlinarith⟩

/-- Witness for C9 at `w = 70`, `h = 70`, `r = 1`. -/
theorem effectiveRadius_clamped_witness :
    0 ≤ effectiveRadius 70 70 1 ∧
    effectiveRadius 70 70 1 ≤ min 70 70 * 0.5 ∧
    0 ≤ 70 * 0.5 - effectiveRadius 70 70 1 ∧
    0 ≤ 70 * 0.5 - effectiveRadius 70 70 1 :=
  effectiveRadius_clamped 70 70 1 (by norm_num) (by norm_num) (by norm_num)

/-- C7: with radius 0 and positive extents, the rounded-rectangle builder
produces exactly the 4 corner vertices of the `w × h` quad (half-extents
`w/2` and `h/2` in the placement plane, mapped by the placement) and 2
triangles split along the diagonal between vertices 1 and 3. -/
theorem roundRect_zero_radius_quad (w h : ℝ) (trsf : V3 → V3)
    (hw : 0 < w) (hh : 0 < h) :
    ((createRoundRectangleTriangles w h 0 trsf).1 =
      [trsf ⟨-(w * 0.5), -(h * 0.5), 0⟩, trsf ⟨-(w * 0.5), h * 0.5, 0⟩,
        trsf ⟨w * 0.5, h * 0.5, 0⟩, trsf ⟨w * 0.5, -(h * 0.5), 0⟩]) ∧
    ((createRoundRectangleTriangles w h 0 trsf).1.length = 4) ∧
    ((createRoundRectangleTriangles w h 0 trsf).2 = [(3, 1, 2), (1, 3, 4)]) ∧
    ((createRoundRectangleTriangles w h 0 trsf).2.length = 2) ∧
    (∀ t ∈ (createRoundRectangleTriangles w h 0 trsf).2,
      (t.1 = 1 ∨ t.2.1 = 1 ∨ t.2.2 = 1) ∧ (t.1 = 3 ∨ t.2.1 = 3 ∨ t.2.2 = 3)) := by
  have hrad : effectiveRadius w h 0 = 0 := by
    unfold effectiveRadius
    exact min_eq_left (by positivity)
  simp only [createRoundRectangleTriangles, hrad, lt_irrefl, if_false, sub_zero]
  norm_num

/-- Witness for C7 at `w = 70`, `h = 70`, identity placement. -/
theorem roundRect_zero_radius_quad_witness :
    ((createRoundRectangleTriangles 70 70 0 id).1 =
      [id (V3.mk (-(70 * 0.5)) (-(70 * 0.5)) 0), id (V3.mk (-(70 * 0.5)) (70 * 0.5) 0),
        id (V3.mk (70 * 0.5) (70 * 0.5) 0), id (V3.mk (70 * 0.5) (-(70 * 0.5)) 0)]) ∧
    ((createRoundRectangleTriangles 70 70 0 id).1.length = 4) ∧
    ((createRoundRectangleTriangles 70 70 0 id).2 = [(3, 1, 2), (1, 3, 4)]) ∧
    ((createRoundRectangleTriangles 70 70 0 id).2.length = 2) ∧
    (∀ t ∈ (createRoundRectangleTriangles 70 70 0 id).2,
      (t.1 = 1 ∨ t.2.1 = 1 ∨ t.2.2 = 1) ∧ (t.1 = 3 ∨ t.2.1 = 3 ∨ t.2.2 = 3)) :=
  roundRect_zero_radius_quad 70 70 id (by norm_num) (by norm_num)

/-- C2: with positive width, height and radius, the rounded-rectangle
builder produces exactly `4·(N+1)+1` vertices for the per-corner split
count `N = THE_NB_ROUND_SPLITS`, and triangulates them as a closed fan
around the center vertex (every triangle starts at vertex 1) whose last
triangle connects the last arc vertex back to the first arc vertex, the
second vertex overall. -/
theorem roundRect_positive_radius_fan (w h r : ℝ) (trsf : V3 → V3)
    (hw : 0 < w) (hh : 0 < h) (hr : 0 < r) :
    ((createRoundRectangleTriangles w h r trsf).1.length
        = 4 * (THE_NB_ROUND_SPLITS + 1) + 1) ∧
    ((createRoundRectangleTriangles w h r trsf).2.length
        = 4 * (THE_NB_ROUND_SPLITS + 1) + 1) ∧
    (∀ t ∈ (createRoundRectangleTriangles w h r trsf).2, t.1 = 1) ∧
    ((createRoundRectangleTriangles w h r trsf).2.getLast?
        = some (1, 4 * (THE_NB_ROUND_SPLITS + 1) + 1, 2)) := by
  have hrad : 0 < effectiveRadius w h r := by
    unfold effectiveRadius
    exact lt_min hr (by positivity)
  simp only [createRoundRectangleTriangles, if_pos hrad]
  refine ⟨?_, ?_, ?_, ?_⟩
  · simp [arcVerts_length, THE_NB_ROUND_SPLITS]
  · simp [THE_NB_ROUND_SPLITS]
  · intro t hmem
    simp only [List.mem_append, List.mem_map, List.mem_range,
      List.mem_singleton] at hmem
    rcases hmem with ⟨k, _, hk⟩ | rfl
    · rw [← hk]
    · rfl
  · rw [List.getLast?_concat]
    norm_num [THE_NB_ROUND_SPLITS]

/-- Witness for C2 at `w = 70`, `h = 70`, `r = 7`, identity placement. -/
theorem roundRect_positive_radius_fan_witness :
    ((createRoundRectangleTriangles 70 70 7 id).1.length
        = 4 * (THE_NB_ROUND_SPLITS + 1) + 1) ∧
    ((createRoundRectangleTriangles 70 70 7 id).2.length
        = 4 * (THE_NB_ROUND_SPLITS + 1) + 1) ∧
    (∀ t ∈ (createRoundRectangleTriangles 70 70 7 id).2, t.1 = 1) ∧
    ((createRoundRectangleTriangles 70 70 7 id).2.getLast?
        = some (1, 4 * (THE_NB_ROUND_SPLITS + 1) + 1, 2)) :=
  roundRect_positive_radius_fan 70 70 7 id (by norm_num) (by norm_num) (by norm_num)

/-- C5: the transition controller is a two-state machine: a reorientation
request enters the Animating state; a tick with elapsed time below the
duration stays Animating, fires only the after-step notification and
returns true; the first tick whose elapsed time reaches the duration
stops the animation, fires the finished notification exactly once,
detaches the held view and returns false; an Idle tick returns false
without firing; and no finished notification fires on a tick that returns
true. -/
theorem animation_tick_state_machine (s : AnimState) (e : ℝ) :
    (HasAnimation (startAnimationTimer s) = true) ∧
    (HasAnimation s = true → e < s.duration →
      UpdateAnimation s e = ({ s with afterCount := s.afterCount + 1 }, true) ∧
      HasAnimation (UpdateAnimation s e).1 = true ∧
      (UpdateAnimation s e).1.finishedCount = s.finishedCount) ∧
    (HasAnimation s = true → s.duration ≤ e →
      UpdateAnimation s e =
        (AnimState.mk true false (s.finishedCount + 1) s.afterCount s.duration,
          false)) ∧
    (HasAnimation s = false → UpdateAnimation s e = (s, false)) ∧
    ((UpdateAnimation s e).2 = true →
      (UpdateAnimation s e).1.finishedCount = s.finishedCount) := by
  refine ⟨by simp [HasAnimation, startAnimationTimer], ?_, ?_, ?_, ?_⟩
  · intro h1 h2
    have hs : s.stopped = false := by simpa [HasAnimation] using h1
    have hde : ¬ s.duration ≤ e := not_le.mpr h2
    simp [UpdateAnimation, updateAnimation, HasAnimation, hs, hde]
  · intro h1 h2
    have hs : s.stopped = false := by simpa [HasAnimation] using h1
    simp [UpdateAnimation, updateAnimation, HasAnimation, hs, h2]
  · intro h1
    simp [UpdateAnimation, h1]
  · by_cases hs : s.stopped
    · simp [UpdateAnimation, HasAnimation, hs]
    · by_cases hde : s.duration ≤ e
      · simp [UpdateAnimation, updateAnimation, HasAnimation, hs, hde]
      · simp [UpdateAnimation, updateAnimation, HasAnimation, hs, hde]

/-- Witness for C5: a running session of duration 0.5 ticked at elapsed
time 0.25 (still animating) — instantiated at a concrete state. -/
theorem animation_tick_state_machine_witness :
    (HasAnimation (startAnimationTimer (AnimState.mk false true 0 0 0.5)) = true) ∧
    ((UpdateAnimation (AnimState.mk false true 0 0 0.5) 0.25).2 = true →
      (UpdateAnimation (AnimState.mk false true 0 0 0.5) 0.25).1.finishedCount
        = 0) := by
  have h := animation_tick_state_machine (AnimState.mk false true 0 0 0.5) 0.25
  exact ⟨h.1, h.2.2.2.2⟩

/-- C8 counterexample: the claim says every value inside `[0, 0.5]` is
accepted and stored, but the in-range value 1e-9 applied to a widget
storing round radius 0 is accepted yet not stored — the update is skipped
because the change is within `Precision::Confusion()`. -/
theorem setRoundRadius_small_change_not_stored :
    (¬ ((1 : ℝ) / 10 ^ 9 < 0 ∨ (0.5 : ℝ) < 1 / 10 ^ 9)) ∧
    SetRoundRadius ⟨0, false⟩ (1 / 10 ^ 9) = Except.ok ⟨0, false⟩ ∧
    (0 : ℝ) ≠ 1 / 10 ^ 9 := by
  refine ⟨by norm_num, ?_, by norm_num⟩
  unfold SetRoundRadius
  rw [if_neg (by norm_num), if_neg (by rw [precisionConfusion]; rw [abs_of_nonpos] <;> norm_num)]

/-- C8 amended: a value outside `[0, 0.5]` fails fast with the descriptive
out-of-range error before any mutation; an in-range value is accepted, and
is stored (with the update flag set) exactly when it differs from the
stored round radius by more than `Precision::Confusion()`; otherwise the
state is left unchanged. -/
theorem setRoundRadius_validation (s : CubeState) (v : ℝ) :
    ((v < 0 ∨ 0.5 < v) → SetRoundRadius s v = Except.error roundRadiusErrorMsg) ∧
    (¬ (v < 0 ∨ 0.5 < v) → precisionConfusion < |s.roundRadius - v| →
      SetRoundRadius s v = Except.ok ⟨v, true⟩) ∧
    (¬ (v < 0 ∨ 0.5 < v) → ¬ precisionConfusion < |s.roundRadius - v| →
      SetRoundRadius s v = Except.ok s) := by
  refine ⟨?_, ?_, ?_⟩ <;> intro h1 <;> unfold SetRoundRadius
  · rw [if_pos h1]
  · intro h2
    rw [if_neg h1, if_pos h2]
  · intro h2
    rw [if_neg h1, if_neg h2]

/-- Witness for C8 amended at the out-of-range value 0.7. -/
theorem setRoundRadius_validation_witness :
    SetRoundRadius ⟨0, false⟩ 0.7 = Except.error roundRadiusErrorMsg :=
  (setRoundRadius_validation ⟨0, false⟩ 0.7).1 (Or.inr (by norm_num))

/-- C10: the 10-degree angular filter applies only to view-cube owners: a
point pick with any other owner is accepted unconditionally, while the
rejection of non-point (rectangle) selection queries applies to every
owner. -/
theorem pick_ray_owner_scope :
    (∀ mgr : PickMgr, mgr.selType = SelType.Point → isValidRay none mgr) ∧
    (∀ (owner : Option CubeOwner) (mgr : PickMgr),
      mgr.selType ≠ SelType.Point → ¬ isValidRay owner mgr) := by
  constructor
  · intro mgr h
    simp [isValidRay, h]
  · intro owner mgr h
    simp [isValidRay, h]

/-- Witness for C10: a point pick with a non-view-cube owner is accepted. -/
theorem pick_ray_owner_scope_witness :
    isValidRay none ⟨SelType.Point, ⟨0, 0, 0⟩, ⟨1, 0, 0⟩⟩ :=
  pick_ray_owner_scope.1 ⟨SelType.Point, ⟨0, 0, 0⟩, ⟨1, 0, 0⟩⟩ rfl

/-- C4: selection against a view-cube pick region rejects every non-point
(drag-rectangle) query; only rays passing the filter reach the base
triangle-intersection test; a point-pick ray exactly parallel to the
projection axis of the region's direction is accepted; a ray exactly
perpendicular to it is rejected; and for the ray family at angle `θ` to
the axis the admissibility boundary lies exactly 10 degrees from
perpendicular. -/
theorem pick_ray_angle_filter :
    (∀ (owner : Option CubeOwner) (mgr : PickMgr) (base : Prop),
      mgr.selType ≠ SelType.Point → ¬ sensMatches owner mgr base) ∧
    (∀ (owner : Option CubeOwner) (mgr : PickMgr) (base : Prop),
      sensMatches owner mgr base → isValidRay owner mgr ∧ base) ∧
    (∀ (o : CubeOwner) (near : V3) (c : ℝ), 0 < c → normV o.axis = 1 →
      isValidRay (some o) ⟨SelType.Point, near, addV near (smulV c o.axis)⟩) ∧
    (∀ (o : CubeOwner) (mgr : PickMgr), mgr.selType = SelType.Point →
      dotV (subV mgr.farPnt mgr.nearPnt) o.axis = 0 →
      ¬ isValidRay (some o) mgr) ∧
    (∀ θ : ℝ, 0 ≤ θ → θ ≤ Real.pi →
      (isValidRay (some ⟨⟨1, 0, 0⟩⟩)
          ⟨SelType.Point, ⟨0, 0, 0⟩, ⟨Real.cos θ, Real.sin θ, 0⟩⟩ ↔
        Real.pi / 18 < |Real.pi / 2 - θ|)) := by
  have hpi : (0 : ℝ) < Real.pi := Real.pi_pos
  have htoler : angleToler = Real.pi / 18 := by
    unfold angleToler
    ring
  refine ⟨?_, ?_, ?_, ?_, ?_⟩
  · intro owner mgr base h hm
    simp only [sensMatches, isValidRay] at hm
    rw [if_pos h] at hm
    exact hm.1
  · intro owner mgr base hm
    exact hm
  · intro o near c hc hno
    have h0 : 0 ≤ dotV o.axis o.axis := by
      simp only [dotV]
      nlinarith [sq_nonneg o.axis.x, sq_nonneg o.axis.y, sq_nonneg o.axis.z]
    have hdot : dotV o.axis o.axis = 1 := by
      have hs := hno
      simp only [normV] at hs
      have h2 := Real.sq_sqrt h0
      rw [hs] at h2
      nlinarith [h2]
    have hray : subV (addV near (smulV c o.axis)) near = smulV c o.axis := by
      simp only [subV, addV, smulV, V3.mk.injEq]
      refine ⟨by ring, by ring, by ring⟩
    have hnsm : normV (smulV c o.axis) = c := by
      simp only [normV, dotV] at hno
      simp only [normV, smulV, dotV]
      rw [show c * o.axis.x * (c * o.axis.x) + c * o.axis.y * (c * o.axis.y) +
          c * o.axis.z * (c * o.axis.z) =
          c ^ 2 * (o.axis.x * o.axis.x + o.axis.y * o.axis.y + o.axis.z * o.axis.z)
        from by ring]
      rw [Real.sqrt_mul (sq_nonneg c), hno, mul_one, Real.sqrt_sq hc.le]
    have hdsm : dotV (smulV c o.axis) o.axis = c := by
      have hd : dotV (smulV c o.axis) o.axis = c * dotV o.axis o.axis := by
        simp only [dotV, smulV]
        ring
      rw [hd, hdot, mul_one]
    have hang : vecAngle (smulV c o.axis) o.axis = 0 := by
      simp only [vecAngle]
      rw [hnsm, hno, mul_one, hdsm, div_self hc.ne']
      exact Real.arccos_one
    simp only [isValidRay]
    rw [if_neg (by simp)]
    rw [hray]
    simp only [vecIsNormal]
    rw [hang, htoler, sub_zero, abs_of_pos (by positivity)]
    intro habs
    nlinarith
  · intro o mgr hsel hdot
    rw [isValidRay, if_neg (by simp [hsel])]
    intro hnot
    apply hnot
    unfold vecIsNormal vecAngle
    rw [hdot, zero_div, Real.arccos_zero, sub_self, abs_zero, htoler]
    positivity
  · intro θ h0 h1
    have hn1 : normV ⟨Real.cos θ, Real.sin θ, 0⟩ = 1 := by
      unfold normV dotV
      rw [show Real.cos θ * Real.cos θ + Real.sin θ * Real.sin θ + 0 * 0 = 1 from by
        nlinarith [Real.sin_sq_add_cos_sq θ]]
      exact Real.sqrt_one
    have hn2 : normV ⟨(1 : ℝ), 0, 0⟩ = 1 := by
      unfold normV dotV
      norm_num
    rw [isValidRay, if_neg (by simp)]
    have hsub : subV (⟨Real.cos θ, Real.sin θ, 0⟩ : V3) ⟨0, 0, 0⟩ =
        ⟨Real.cos θ, Real.sin θ, 0⟩ := by
      simp [subV]
    have hang : vecAngle ⟨Real.cos θ, Real.sin θ, 0⟩ ⟨1, 0, 0⟩ = θ := by
      unfold vecAngle
      rw [hn1, hn2]
      rw [show dotV ⟨Real.cos θ, Real.sin θ, 0⟩ ⟨1, 0, 0⟩ = Real.cos θ from by
        unfold dotV
        ring]
      rw [mul_one, div_one]
      exact Real.arccos_cos h0 h1
    show (¬ vecIsNormal _ _ _) ↔ _
    rw [hsub]
    unfold vecIsNormal
    rw [hang, htoler, not_le]

/-- Witness for C4: the ray along the +X projection axis itself (length 1,
from the origin) is accepted for an owner with that axis. -/
theorem pick_ray_angle_filter_witness :
    isValidRay (some ⟨⟨1, 0, 0⟩⟩)
      ⟨SelType.Point, ⟨0, 0, 0⟩, addV ⟨0, 0, 0⟩ (smulV 1 ⟨1, 0, 0⟩)⟩ :=
  pick_ray_angle_filter.2.2.1 ⟨⟨1, 0, 0⟩⟩ ⟨0, 0, 0⟩ 1 (by norm_num)
    (by unfold normV dotV; norm_num)

/-- The dot product of a vector with itself is non-negative. -/
theorem dotV_self_nonneg (v : V3) : 0 ≤ dotV v v := by
  simp only [dotV]
  nlinarith [sq_nonneg v.x, sq_nonneg v.y, sq_nonneg v.z]

/-- Normalizing a corner sign vector scales it by the inverse of √3. -/
theorem normalizeV_corner (sx sy sz : ℝ) (hx : sx = 1 ∨ sx = -1)
    (hy : sy = 1 ∨ sy = -1) (hz : sz = 1 ∨ sz = -1) :
    normalizeV ⟨sx, sy, sz⟩ = smulV (Real.sqrt 3)⁻¹ ⟨sx, sy, sz⟩ := by
  have h : dotV ⟨sx, sy, sz⟩ ⟨sx, sy, sz⟩ = 3 := by
    rcases hx with rfl | rfl <;> rcases hy with rfl | rfl <;>
      rcases hz with rfl | rfl <;> norm_num [dotV]
  simp only [normalizeV, normV, h]

/-- Normalizing a vector along the x axis divides by its magnitude. -/
theorem normalizeV_xaxis (a : ℝ) :
    normalizeV ⟨a, 0, 0⟩ = ⟨a / |a|, 0, 0⟩ := by
  simp only [normalizeV, normV, dotV, smulV]
  rw [show a * a + 0 * 0 + 0 * 0 = a * a from by ring,
    Real.sqrt_mul_self_eq_abs]
  simp only [V3.mk.injEq, mul_zero, inv_mul_eq_div]

/-- Normalizing a vector along the y axis divides by its magnitude. -/
theorem normalizeV_yaxis (a : ℝ) :
    normalizeV ⟨0, a, 0⟩ = ⟨0, a / |a|, 0⟩ := by
  simp only [normalizeV, normV, dotV, smulV]
  rw [show 0 * 0 + a * a + 0 * 0 = a * a from by ring,
    Real.sqrt_mul_self_eq_abs]
  simp only [V3.mk.injEq, mul_zero, inv_mul_eq_div]

/-- Normalizing a vector along the z axis divides by its magnitude. -/
theorem normalizeV_zaxis (a : ℝ) :
    normalizeV ⟨0, 0, a⟩ = ⟨0, 0, a / |a|⟩ := by
  simp only [normalizeV, normV, dotV, smulV]
  rw [show 0 * 0 + 0 * 0 + a * a = a * a from by ring,
    Real.sqrt_mul_self_eq_abs]
  simp only [V3.mk.injEq, mul_zero, inv_mul_eq_div]

/-- Closed form of the sharp-corner builder on a corner sign direction:
the vertices sit at the cube corner offset by `ext` along each axis in the
sign of that axis's component, and the winding is chosen by the sign of
`sx·sy·sz`. -/
theorem createBoxCornerSharp_eq (size ext sx sy sz : ℝ)
    (hx : sx = 1 ∨ sx = -1) (hy : sy = 1 ∨ sy = -1) (hz : sz = 1 ∨ sz = -1) :
    createBoxCornerSharp size ext (normalizeV ⟨sx, sy, sz⟩) =
      ([⟨size * 0.5 * sx + ext * sx, size * 0.5 * sy, size * 0.5 * sz⟩,
        ⟨size * 0.5 * sx, size * 0.5 * sy + ext * sy, size * 0.5 * sz⟩,
        ⟨size * 0.5 * sx, size * 0.5 * sy, size * 0.5 * sz + ext * sz⟩],
       if (Real.sqrt 3)⁻¹ * (3 * ext ^ 2 * (sx * sy * sz)) < 0 then [(1, 3, 2)]
       else [(1, 2, 3)]) := by
  have hs3 : (0 : ℝ) < Real.sqrt 3 := Real.sqrt_pos.mpr (by norm_num)
  have habsx : |sx| = 1 := by rcases hx with rfl | rfl <;> norm_num
  have habsy : |sy| = 1 := by rcases hy with rfl | rfl <;> norm_num
  have habsz : |sz| = 1 := by rcases hz with rfl | rfl <;> norm_num
  have h111 : normV ⟨1, 1, 1⟩ = Real.sqrt 3 := by
    simp only [normV, dotV]
    norm_num
  have hdir := normalizeV_corner sx sy sz hx hy hz
  have hax : normalizeV ⟨(Real.sqrt 3)⁻¹ * sx, 0, 0⟩ = ⟨sx, 0, 0⟩ := by
    rw [normalizeV_xaxis, abs_mul, abs_inv, abs_of_pos hs3, habsx, mul_one,
      mul_comm, mul_div_assoc, div_self (inv_ne_zero hs3.ne'), mul_one]
  have hay : normalizeV ⟨0, (Real.sqrt 3)⁻¹ * sy, 0⟩ = ⟨0, sy, 0⟩ := by
    rw [normalizeV_yaxis, abs_mul, abs_inv, abs_of_pos hs3, habsy, mul_one,
      mul_comm, mul_div_assoc, div_self (inv_ne_zero hs3.ne'), mul_one]
  have haz : normalizeV ⟨0, 0, (Real.sqrt 3)⁻¹ * sz⟩ = ⟨0, 0, sz⟩ := by
    rw [normalizeV_zaxis, abs_mul, abs_inv, abs_of_pos hs3, habsz, mul_one,
      mul_comm, mul_div_assoc, div_self (inv_ne_zero hs3.ne'), mul_one]
  rw [hdir]
  simp only [createBoxCornerSharp, smulV, h111, hax, hay, haz, addV, subV,
    crossV, dotV]
  simp only [Prod.mk.injEq]
  constructor
  · simp only [List.cons.injEq, V3.mk.injEq, and_true]
    repeat' apply And.intro
    all_goals
      field_simp
      try ring
  · refine if_congr ?_ rfl rfl
    ring_nf

/-- C6: for every corner direction (unit vector of a sign combination) in
sharp mode, the mesh is a single triangle whose vertices are the cube
corner offset independently along each world axis by the facet extension
in the sign of that axis's component; the winding makes the face normal
point along the direction (positive dot product), the second and third
vertices being swapped exactly when the naturally wound normal points
inward. -/
theorem corner_sharp_triangle (size ext sx sy sz : ℝ)
    (hx : sx = 1 ∨ sx = -1) (hy : sy = 1 ∨ sy = -1) (hz : sz = 1 ∨ sz = -1)
    (hext : 0 < ext) :
    ((createBoxCornerSharp size ext (normalizeV ⟨sx, sy, sz⟩)).1 =
      [⟨size * 0.5 * sx + ext * sx, size * 0.5 * sy, size * 0.5 * sz⟩,
       ⟨size * 0.5 * sx, size * 0.5 * sy + ext * sy, size * 0.5 * sz⟩,
       ⟨size * 0.5 * sx, size * 0.5 * sy, size * 0.5 * sz + ext * sz⟩]) ∧
    ((createBoxCornerSharp size ext (normalizeV ⟨sx, sy, sz⟩)).2.length = 1) ∧
    (∀ t ∈ (createBoxCornerSharp size ext (normalizeV ⟨sx, sy, sz⟩)).2,
      0 < dotV
        (triNormal (createBoxCornerSharp size ext (normalizeV ⟨sx, sy, sz⟩)).1 t)
        (normalizeV ⟨sx, sy, sz⟩)) ∧
    (dotV
        (triNormal (createBoxCornerSharp size ext (normalizeV ⟨sx, sy, sz⟩)).1
          (1, 2, 3)) (normalizeV ⟨sx, sy, sz⟩) < 0 →
      (createBoxCornerSharp size ext (normalizeV ⟨sx, sy, sz⟩)).2 = [(1, 3, 2)]) ∧
    (0 ≤ dotV
        (triNormal (createBoxCornerSharp size ext (normalizeV ⟨sx, sy, sz⟩)).1
          (1, 2, 3)) (normalizeV ⟨sx, sy, sz⟩) →
      (createBoxCornerSharp size ext (normalizeV ⟨sx, sy, sz⟩)).2 = [(1, 2, 3)]) := by
  have hs3 : (0 : ℝ) < Real.sqrt 3 := Real.sqrt_pos.mpr (by norm_num)
  have heq := createBoxCornerSharp_eq size ext sx sy sz hx hy hz
  have hdir := normalizeV_corner sx sy sz hx hy hz
  rw [heq, hdir]
  dsimp only
  have hp : sx * sy * sz = 1 ∨ sx * sy * sz = -1 := by
    rcases hx with rfl | rfl <;> rcases hy with rfl | rfl <;>
      rcases hz with rfl | rfl <;> norm_num
  have hnat :
      dotV
        (triNormal
          [⟨size * 0.5 * sx + ext * sx, size * 0.5 * sy, size * 0.5 * sz⟩,
           ⟨size * 0.5 * sx, size * 0.5 * sy + ext * sy, size * 0.5 * sz⟩,
           ⟨size * 0.5 * sx, size * 0.5 * sy, size * 0.5 * sz + ext * sz⟩]
          (1, 2, 3)) (smulV (Real.sqrt 3)⁻¹ ⟨sx, sy, sz⟩) =
        (Real.sqrt 3)⁻¹ * (3 * ext ^ 2 * (sx * sy * sz)) := by
    simp only [triNormal]
    norm_num [List.getD, subV, crossV, dotV, smulV]
    ring
  have hswap :
      dotV
        (triNormal
          [⟨size * 0.5 * sx + ext * sx, size * 0.5 * sy, size * 0.5 * sz⟩,
           ⟨size * 0.5 * sx, size * 0.5 * sy + ext * sy, size * 0.5 * sz⟩,
           ⟨size * 0.5 * sx, size * 0.5 * sy, size * 0.5 * sz + ext * sz⟩]
          (1, 3, 2)) (smulV (Real.sqrt 3)⁻¹ ⟨sx, sy, sz⟩) =
        -((Real.sqrt 3)⁻¹ * (3 * ext ^ 2 * (sx * sy * sz))) := by
    simp only [triNormal]
    norm_num [List.getD, subV, crossV, dotV, smulV]
    ring
  rcases hp with hp1 | hp1
  · have hpos : (0 : ℝ) < (Real.sqrt 3)⁻¹ * (3 * ext ^ 2 * (sx * sy * sz)) := by
      rw [hp1, mul_one]
      positivity
    rw [if_neg (not_lt.mpr hpos.le)]
    refine ⟨rfl, rfl, ?_, ?_, fun _ => rfl⟩
    · intro t ht
      rw [List.mem_singleton] at ht
      rw [ht, hnat]
      exact hpos
    · intro habs
      rw [hnat] at habs
      exact absurd habs (not_lt.mpr hpos.le)
  · have hneg : (Real.sqrt 3)⁻¹ * (3 * ext ^ 2 * (sx * sy * sz)) < 0 := by
      rw [hp1]
      have : (0 : ℝ) < (Real.sqrt 3)⁻¹ * (3 * ext ^ 2) := by positivity
      nlinarith
    rw [if_pos hneg]
    refine ⟨rfl, rfl, ?_, fun _ => rfl, ?_⟩
    · intro t ht
      rw [List.mem_singleton] at ht
      rw [ht, hswap]
      linarith
    · intro habs
      rw [hnat] at habs
      exact absurd hneg (not_lt.mpr habs)

/-- Witness for C6 at the `(+1, +1, -1)` corner with `size = 70`,
`ext = 10.5`. -/
theorem corner_sharp_triangle_witness :
    ((createBoxCornerSharp 70 10.5 (normalizeV ⟨1, 1, -1⟩)).2.length = 1) ∧
    (∀ t ∈ (createBoxCornerSharp 70 10.5 (normalizeV ⟨1, 1, -1⟩)).2,
      0 < dotV
        (triNormal (createBoxCornerSharp 70 10.5 (normalizeV ⟨1, 1, -1⟩)).1 t)
        (normalizeV ⟨1, 1, -1⟩)) := by
  have h := corner_sharp_triangle 70 10.5 1 1 (-1) (Or.inl rfl) (Or.inl rfl)
    (Or.inr rfl) (by norm_num)
  exact ⟨h.2.1, h.2.2.1⟩

/-- Numeral form of the `Fin 4` literal 2 (used to normalize `fin_cases`
output). -/
theorem finFour_mk_two (h : 2 < 4) : (⟨2, h⟩ : Fin 4) = 2 := rfl

/-- Numeral form of the `Fin 4` literal 3 (used to normalize `fin_cases`
output). -/
theorem finFour_mk_three (h : 3 < 4) : (⟨3, h⟩ : Fin 4) = 3 := rfl

/-- The argmin loop of `StartAnimation` returns a candidate whose angle to
the old up is minimal, and strictly below every earlier candidate's angle
(ties keep the first-found candidate in rotation order). -/
theorem selectClosestUp_spec (cands : Fin 4 → V3) (oldUp : V3) :
    ∃ j : Fin 4, selectClosestUp cands oldUp = cands j ∧
      (∀ i : Fin 4, vecAngle (cands j) oldUp ≤ vecAngle (cands i) oldUp) ∧
      (∀ i : Fin 4, i < j →
        vecAngle (cands j) oldUp < vecAngle (cands i) oldUp) := by
  have hbig : ∀ i : Fin 4, vecAngle (cands i) oldUp < precisionInfinite := by
    intro i
    have h1 := Real.arccos_le_pi
      (dotV (cands i) oldUp / (normV (cands i) * normV oldUp))
    have h4 := Real.pi_le_four
    unfold vecAngle precisionInfinite
    nlinarith
  unfold selectClosestUp
  rw [show (List.finRange 4) = [0, 1, 2, 3] from rfl]
  simp only [List.foldl_cons, List.foldl_nil]
  rw [if_pos (hbig 0)]
  dsimp only
  by_cases h1 : vecAngle (cands 1) oldUp < vecAngle (cands 0) oldUp
  · rw [if_pos h1]
    dsimp only
    by_cases h2 : vecAngle (cands 2) oldUp < vecAngle (cands 1) oldUp
    · rw [if_pos h2]
      dsimp only
      by_cases h3 : vecAngle (cands 3) oldUp < vecAngle (cands 2) oldUp
      · rw [if_pos h3]
        refine ⟨3, rfl, fun i => ?_, fun i hi => ?_⟩ <;>
          fin_cases i <;> first | exact absurd hi (by decide) | (norm_num [finFour_mk_two, finFour_mk_three]; linarith) | norm_num [finFour_mk_two, finFour_mk_three]
      · rw [if_neg h3]
        have h3' := not_lt.mp h3
        refine ⟨2, rfl, fun i => ?_, fun i hi => ?_⟩ <;>
          fin_cases i <;> first | exact absurd hi (by decide) | (norm_num [finFour_mk_two, finFour_mk_three]; linarith) | norm_num [finFour_mk_two, finFour_mk_three]
    · rw [if_neg h2]
      have h2' := not_lt.mp h2
      dsimp only
      by_cases h3 : vecAngle (cands 3) oldUp < vecAngle (cands 1) oldUp
      · rw [if_pos h3]
        refine ⟨3, rfl, fun i => ?_, fun i hi => ?_⟩ <;>
          fin_cases i <;> first | exact absurd hi (by decide) | (norm_num [finFour_mk_two, finFour_mk_three]; linarith) | norm_num [finFour_mk_two, finFour_mk_three]
      · rw [if_neg h3]
        have h3' := not_lt.mp h3
        refine ⟨1, rfl, fun i => ?_, fun i hi => ?_⟩ <;>
          fin_cases i <;> first | exact absurd hi (by decide) | (norm_num [finFour_mk_two, finFour_mk_three]; linarith) | norm_num [finFour_mk_two, finFour_mk_three]
  · rw [if_neg h1]
    have h1' := not_lt.mp h1
    dsimp only
    by_cases h2 : vecAngle (cands 2) oldUp < vecAngle (cands 0) oldUp
    · rw [if_pos h2]
      dsimp only
      by_cases h3 : vecAngle (cands 3) oldUp < vecAngle (cands 2) oldUp
      · rw [if_pos h3]
        refine ⟨3, rfl, fun i => ?_, fun i hi => ?_⟩ <;>
          fin_cases i <;> first | exact absurd hi (by decide) | (norm_num [finFour_mk_two, finFour_mk_three]; linarith) | norm_num [finFour_mk_two, finFour_mk_three]
      · rw [if_neg h3]
        have h3' := not_lt.mp h3
        refine ⟨2, rfl, fun i => ?_, fun i hi => ?_⟩ <;>
          fin_cases i <;> first | exact absurd hi (by decide) | (norm_num [finFour_mk_two, finFour_mk_three]; linarith) | norm_num [finFour_mk_two, finFour_mk_three]
    · rw [if_neg h2]
      have h2' := not_lt.mp h2
      dsimp only
      by_cases h3 : vecAngle (cands 3) oldUp < vecAngle (cands 0) oldUp
      · rw [if_pos h3]
        refine ⟨3, rfl, fun i => ?_, fun i hi => ?_⟩ <;>
          fin_cases i <;> first | exact absurd hi (by decide) | (norm_num [finFour_mk_two, finFour_mk_three]; linarith) | norm_num [finFour_mk_two, finFour_mk_three]
      · rw [if_neg h3]
        have h3' := not_lt.mp h3
        refine ⟨0, rfl, fun i => ?_, fun i hi => ?_⟩ <;>
          fin_cases i <;> first | exact absurd hi (by decide) | (norm_num [finFour_mk_two, finFour_mk_three]; linarith) | norm_num [finFour_mk_two, finFour_mk_three]

/-- C1 counterexample: with the reset-up policy unset but the requested
direction equal to the current view direction, the guard in
`StartAnimation` skips the candidate search and keeps the canonical up,
although the 90°-rotated candidate is strictly closer to the previous up —
so the end up is not always a minimal-distance candidate whenever the
policy is unset. -/
theorem startAnimation_up_counterexample :
    startAnimationEndUp false ⟨⟨0, 0, -1⟩, ⟨1, 0, 0⟩⟩ ⟨⟨0, 0, -1⟩, ⟨0, 1, 0⟩⟩ =
      ⟨0, 1, 0⟩ ∧
    vecAngle (upCandidates ⟨0, 0, -1⟩ ⟨0, 1, 0⟩ 1) ⟨1, 0, 0⟩ <
      vecAngle
        (startAnimationEndUp false ⟨⟨0, 0, -1⟩, ⟨1, 0, 0⟩⟩
          ⟨⟨0, 0, -1⟩, ⟨0, 1, 0⟩⟩) ⟨1, 0, 0⟩ := by
  have hself : vecAngle ⟨0, 0, -1⟩ ⟨0, 0, -1⟩ = 0 := by
    unfold vecAngle normV dotV
    norm_num [Real.sqrt_one, Real.arccos_one]
  have hend : startAnimationEndUp false ⟨⟨0, 0, -1⟩, ⟨1, 0, 0⟩⟩
      ⟨⟨0, 0, -1⟩, ⟨0, 1, 0⟩⟩ = ⟨0, 1, 0⟩ := by
    unfold startAnimationEndUp
    rw [if_neg]
    intro hcond
    apply hcond.2
    dsimp only
    rw [hself]
    unfold precisionAngular
    positivity
  have hcand1 : upCandidates ⟨0, 0, -1⟩ ⟨0, 1, 0⟩ 1 = ⟨1, 0, 0⟩ := by
    show rotatedV ⟨0, 0, -1⟩ (Real.pi / 2) ⟨0, 1, 0⟩ = ⟨1, 0, 0⟩
    unfold rotatedV crossV dotV addV smulV
    norm_num [Real.cos_pi_div_two, Real.sin_pi_div_two]
  refine ⟨hend, ?_⟩
  rw [hend, hcand1]
  have ha : vecAngle ⟨1, 0, 0⟩ ⟨1, 0, 0⟩ = 0 := by
    unfold vecAngle normV dotV
    norm_num [Real.sqrt_one, Real.arccos_one]
  have hb : vecAngle ⟨0, 1, 0⟩ ⟨1, 0, 0⟩ = Real.pi / 2 := by
    unfold vecAngle normV dotV
    norm_num [Real.sqrt_one, Real.arccos_zero]
  rw [ha, (show ((⟨1, 0, 0⟩ : V3)) = (⟨1, 0, 0⟩ : V3) from rfl)]
  rw [hb]
  positivity

/-- C1 amended: when a reorientation is requested, the always-reset-up
policy is not set, and the new view direction differs from the previous
camera's direction beyond the angular tolerance, the end pose's up vector
is one of the 4 candidates obtained by rotating the canonical up of the
new orientation by 0°, 90°, 180°, 270° around the new view direction,
its angular distance to the previous up is no greater than any other
candidate's, and ties are resolved by the first-found candidate in
rotation order. -/
theorem startAnimation_up_disambiguation (toReset : Bool) (old target : CamPose)
    (hreset : toReset = false)
    (hdir : ¬ vecAngle target.dir old.dir ≤ precisionAngular) :
    ∃ j : Fin 4,
      startAnimationEndUp toReset old target =
        upCandidates target.dir target.up j ∧
      (∀ i : Fin 4,
        vecAngle (upCandidates target.dir target.up j) old.up ≤
          vecAngle (upCandidates target.dir target.up i) old.up) ∧
      (∀ i : Fin 4, i < j →
        vecAngle (upCandidates target.dir target.up j) old.up <
          vecAngle (upCandidates target.dir target.up i) old.up) := by
  unfold startAnimationEndUp
  rw [if_pos ⟨hreset, hdir⟩]
  exact selectClosestUp_spec _ _

/-- Witness for C1 amended: reorienting from a view along +X to the top
view (direction −Z, canonical up +Y). -/
theorem startAnimation_up_disambiguation_witness :
    ∃ j : Fin 4,
      startAnimationEndUp false ⟨⟨1, 0, 0⟩, ⟨0, 0, 1⟩⟩ ⟨⟨0, 0, -1⟩, ⟨0, 1, 0⟩⟩ =
        upCandidates ⟨0, 0, -1⟩ ⟨0, 1, 0⟩ j ∧
      (∀ i : Fin 4,
        vecAngle (upCandidates ⟨0, 0, -1⟩ ⟨0, 1, 0⟩ j) ⟨0, 0, 1⟩ ≤
          vecAngle (upCandidates ⟨0, 0, -1⟩ ⟨0, 1, 0⟩ i) ⟨0, 0, 1⟩) ∧
      (∀ i : Fin 4, i < j →
        vecAngle (upCandidates ⟨0, 0, -1⟩ ⟨0, 1, 0⟩ j) ⟨0, 0, 1⟩ <
          vecAngle (upCandidates ⟨0, 0, -1⟩ ⟨0, 1, 0⟩ i) ⟨0, 0, 1⟩) := by
  refine startAnimation_up_disambiguation false ⟨⟨1, 0, 0⟩, ⟨0, 0, 1⟩⟩
    ⟨⟨0, 0, -1⟩, ⟨0, 1, 0⟩⟩ rfl ?_
  have hang : vecAngle (⟨0, 0, -1⟩ : V3) ⟨1, 0, 0⟩ = Real.pi / 2 := by
    unfold vecAngle normV dotV
    norm_num [Real.sqrt_one, Real.arccos_zero]
  dsimp only
  rw [hang]
  unfold precisionAngular
  intro hle
  nlinarith [Real.pi_gt_three]

end ViewCube
